import Mathlib

/-!
Verification of the NCF data pipeline (`official/recommendation/data_pipeline.py`).

The Python module is shallowly embedded: numpy arrays become `List ℕ`
(item/user ids are nonnegative machine integers well below any overflow
boundary, so `ℕ` is exact), in-place numpy writes are modelled by explicit
state passing, and code that can raise returns `Except`.

External collaborators (`stat_utils.AsyncPermuter`,
`stat_utils.slightly_biased_randint`, `stat_utils.mask_duplicates`,
`rconst.NUM_EVAL_NEGATIVES`) are not part of the source tree; they are
modelled from their documented contracts and kept as explicit parameters
or hypotheses.
-/

namespace DataPipeline

/-! ### Sizing arithmetic (`BaseDataConstructor._count_batches`, lines 123-125) -/

/-- `BaseDataConstructor._count_batches`:
`x = (example_count + batch_size - 1) // batch_size` followed by
`(x + batches_per_step - 1) // batches_per_step * batches_per_step`.
Python `//` on nonnegative integers is `Nat` division. -/
def countBatches (exampleCount batchSize batchesPerStep : ℕ) : ℕ :=
  let x := (exampleCount + batchSize - 1) / batchSize
  (x + batchesPerStep - 1) / batchesPerStep * batchesPerStep

/-- `self._elements_in_epoch = (1 + num_train_negatives) * self._train_pos_count`
(line 80). -/
def elementsInEpoch (numTrainNegatives trainPosCount : ℕ) : ℕ :=
  (1 + numTrainNegatives) * trainPosCount

/-! ### Constructor (`BaseDataConstructor.__init__`, lines 54-111) -/

/-- The arguments of `BaseDataConstructor.__init__`.  `numEvalNegatives`
stands for the module constant `rconst.NUM_EVAL_NEGATIVES`, which lives
outside the source tree; it is carried as an explicit parameter. -/
structure InitArgs where
  maximumNumberEpochs : ℕ
  numUsers : ℕ
  numItems : ℕ
  trainPosUsers : List ℕ
  trainPosItems : List ℕ
  trainBatchSize : ℕ
  batchesPerTrainStep : ℕ
  numTrainNegatives : ℕ
  evalPosUsers : List ℕ
  evalPosItems : List ℕ
  evalBatchSize : ℕ
  batchesPerEvalStep : ℕ
  numEvalNegatives : ℕ
deriving DecidableEq

/-- The exceptions `__init__` can raise: the `assert` on the shapes of the
two training arrays (line 76), the explicit `ValueError` on the eval batch
size (lines 89-91), and `ZeroDivisionError` from the `//` inside
`_count_batches` when a divisor argument is zero. -/
inductive InitError where
  | assertionError
  | valueError
  | zeroDivisionError
deriving DecidableEq

/-- The state a successfully constructed `BaseDataConstructor` holds. -/
structure Config where
  maximumNumberEpochs : ℕ
  numUsers : ℕ
  numItems : ℕ
  trainPosUsers : List ℕ
  trainPosItems : List ℕ
  trainPosCount : ℕ
  trainBatchSize : ℕ
  numTrainNegatives : ℕ
  epochElements : ℕ
  batchesPerTrainStep : ℕ
  trainBatchesPerEpoch : ℕ
  evalPosUsers : List ℕ
  evalPosItems : List ℕ
  evalBatchSize : ℕ
  numEvalNegatives : ℕ
  evalUsersPerBatch : ℕ
  evalElementsInEpoch : ℕ
  evalBatchesPerEpoch : ℕ
deriving DecidableEq

/-- `BaseDataConstructor.__init__`, with each possible raise made explicit,
in source order: the shape `assert` (line 76) fires before the training
`_count_batches` call (line 82, whose `//` raises on a zero divisor), which
fires before the eval divisibility `ValueError` (line 89), which fires
before the eval `_count_batches` call (line 95). -/
def initConstructor (a : InitArgs) : Except InitError Config :=
  if a.trainPosUsers.length ≠ a.trainPosItems.length then
    .error .assertionError
  else if a.trainBatchSize = 0 then .error .zeroDivisionError
  else if a.batchesPerTrainStep = 0 then .error .zeroDivisionError
  else if a.evalBatchSize % (1 + a.numEvalNegatives) ≠ 0 then .error .valueError
  else if a.evalBatchSize = 0 then .error .zeroDivisionError
  else if a.batchesPerEvalStep = 0 then .error .zeroDivisionError
  else
    .ok
      { maximumNumberEpochs := a.maximumNumberEpochs
        numUsers := a.numUsers
        numItems := a.numItems
        trainPosUsers := a.trainPosUsers
        trainPosItems := a.trainPosItems
        trainPosCount := a.trainPosUsers.length
        trainBatchSize := a.trainBatchSize
        numTrainNegatives := a.numTrainNegatives
        epochElements := elementsInEpoch a.numTrainNegatives a.trainPosUsers.length
        batchesPerTrainStep := a.batchesPerTrainStep
        trainBatchesPerEpoch :=
          countBatches (elementsInEpoch a.numTrainNegatives a.trainPosUsers.length)
            a.trainBatchSize a.batchesPerTrainStep
        evalPosUsers := a.evalPosUsers
        evalPosItems := a.evalPosItems
        evalBatchSize := a.evalBatchSize
        numEvalNegatives := a.numEvalNegatives
        evalUsersPerBatch := a.evalBatchSize / (1 + a.numEvalNegatives)
        evalElementsInEpoch := a.numUsers * (1 + a.numEvalNegatives)
        evalBatchesPerEpoch :=
          countBatches (a.numUsers * (1 + a.numEvalNegatives))
            a.evalBatchSize a.batchesPerEvalStep }

/-! ### Shuffle stream (`BaseDataConstructor._get_order_chunk`, lines 131-148)

`self._shuffle_producer` is `stat_utils.AsyncPermuter(elements_in_epoch, ...)`,
an external collaborator: its `get()` returns, on the k-th call, a fresh
permutation of `[0, elements_in_epoch)`.  It is modelled as a function
`perms : ℕ → List ℕ` giving the k-th permutation it hands out; the fact that
each `perms k` is a permutation of the epoch index space is a hypothesis of
the theorems. -/

/-- `self._current_epoch_order` (`None` before the first fetch) together with
the number of permutations already fetched from the producer. -/
structure OrderState where
  order : Option (List ℕ)
  next : ℕ
deriving DecidableEq

/-- State at the end of `__init__`: `self._current_epoch_order = None`. -/
def startOrderState : OrderState := { order := none, next := 0 }

/-- The body of `_get_order_chunk` after `self._current_epoch_order` is
known to hold a list `current` (`fetchCount` counts the permutations fetched
so far): slice off `train_batch_size` indices, refill when the remainder is
exhausted, and splice extra indices from the fresh permutation if the slice
came up short (`num_extra` nonzero). -/
def orderChunkCore (perms : ℕ → List ℕ) (trainBatchSize : ℕ)
    (current : List ℕ) (fetchCount : ℕ) : List ℕ × OrderState :=
  let batchIndices := current.take trainBatchSize
  let remaining := current.drop trainBatchSize
  let refilled : List ℕ × ℕ :=
    if remaining.isEmpty then (perms fetchCount, fetchCount + 1)
    else (remaining, fetchCount)
  let numExtra := trainBatchSize - batchIndices.length
  if numExtra = 0 then
    (batchIndices, { order := some refilled.1, next := refilled.2 })
  else
    (batchIndices ++ refilled.1.take numExtra,
     { order := some (refilled.1.drop numExtra), next := refilled.2 })

/-- `BaseDataConstructor._get_order_chunk`, one call (the body of the
`with self._current_epoch_order_lock:` block, executed atomically): the
`if self._current_epoch_order is None` initial fetch, then the slicing. -/
def getOrderChunk (perms : ℕ → List ℕ) (trainBatchSize : ℕ) (s : OrderState) :
    List ℕ × OrderState :=
  match s.order with
  | none => orderChunkCore perms trainBatchSize (perms s.next) (s.next + 1)
  | some o => orderChunkCore perms trainBatchSize o s.next

/-- `n` successive calls of `_get_order_chunk`, collecting the returned
chunks in order. -/
def chunkRun (perms : ℕ → List ℕ) (trainBatchSize : ℕ) :
    ℕ → OrderState → List (List ℕ) × OrderState
  | 0, s => ([], s)
  | n + 1, s =>
      let step := getOrderChunk perms trainBatchSize s
      let rest := chunkRun perms trainBatchSize n step.2
      (step.1 :: rest.1, rest.2)

/-- The concatenation of permutations `perms start, ..., perms (start+k-1)`. -/
def permsFlat (perms : ℕ → List ℕ) : ℕ → ℕ → List ℕ
  | _, 0 => []
  | start, k + 1 => perms start ++ permsFlat perms (start + 1) k

/-- The stream of indices still to be handed out from state `s`, cut off
after the producer's first `K` permutations: the held remainder followed by
the not-yet-fetched permutations. -/
def pending (perms : ℕ → List ℕ) (K : ℕ) (s : OrderState) : List ℕ :=
  s.order.getD [] ++ permsFlat perms s.next (K - s.next)

/-! ### Training batches (`BaseDataConstructor._get_training_batch`,
lines 164-182) -/

structure TrainBatch where
  users : List ℕ
  items : List ℕ
  labels : List ℕ
deriving DecidableEq

/-- `items[negative_indices] = negative_items`: walk the row, replacing the
entries whose flag is `true` by the successive sampled negatives. -/
def applyNegatives : List ℕ → List Bool → List ℕ → List ℕ
  | items, [], _ => items
  | [], _ :: _, _ => []
  | _ :: items, true :: flags, negs => negs.headD 0 :: applyNegatives items flags negs.tail
  | it :: items, false :: flags, negs => it :: applyNegatives items flags negs

/-- The body of `_get_training_batch` after the order chunk is obtained.
`sampler` stands for the polymorphic hook `self.lookup_negative_items`
(abstract in the base class), invoked once with the users of the
negative-flagged rows.  The gathers `self._train_pos_users[batch_ind_mod]`
and `self._train_pos_items[batch_ind_mod]` are numpy advanced indexing and
return fresh copies; the in-place write lands on the `items` copy. -/
def buildTrainingBatch (trainPosUsers trainPosItems : List ℕ) (trainPosCount : ℕ)
    (sampler : List ℕ → List ℕ) (batchIndices : List ℕ) : TrainBatch :=
  let batchIndMod := batchIndices.map (fun k => k % trainPosCount)
  let users := batchIndMod.map (fun r => trainPosUsers.getD r 0)
  let negativeFlags := batchIndices.map (fun k => decide (trainPosCount ≤ k))
  let negativeUsers := ((users.zip negativeFlags).filter (fun p => p.2)).map (fun p => p.1)
  let negativeItems := sampler negativeUsers
  let posItems := batchIndMod.map (fun r => trainPosItems.getD r 0)
  let items := applyNegatives posItems negativeFlags negativeItems
  let labels := negativeFlags.map (fun f => if f then 0 else 1)
  { users := users, items := items, labels := labels }

/-- `_get_training_batch`: pull one order chunk, then build the batch. -/
def getTrainingBatch (trainPosUsers trainPosItems : List ℕ)
    (trainPosCount trainBatchSize : ℕ) (sampler : List ℕ → List ℕ)
    (perms : ℕ → List ℕ) (s : OrderState) : TrainBatch × OrderState :=
  let step := getOrderChunk perms trainBatchSize s
  (buildTrainingBatch trainPosUsers trainPosItems trainPosCount sampler step.1,
   step.2)

/-! ### Eval batches (`BaseDataConstructor._get_eval_batch`, lines 206-240) -/

def maskDupGo : List ℕ → List ℕ → List Bool
  | _, [] => []
  | seen, x :: xs => decide (x ∈ seen) :: maskDupGo (x :: seen) xs

/-- Modelled from the spec: `stat_utils.mask_duplicates(rows, axis=1)` is an
external collaborator whose contract (spec section 6) is "true at position
`(r,c)` iff `rows[r,c]` equals another entry earlier in row `r`". -/
def maskDuplicates (row : List ℕ) : List Bool := maskDupGo [] row

/-- `row[(0, -1)] = row[(-1, 0)]`: numpy fancy-index column swap of the first
and last entry (the right-hand side is materialized before assignment). -/
def swapFirstLast {α : Type} : List α → List α
  | [] => []
  | [x] => [x]
  | x :: y :: rest => (y :: rest).getLastD x :: ((y :: rest).dropLast ++ [x])

/-- One row of an eval batch: the user replicated across the candidate
columns, the candidate items, and the duplicate mask. -/
structure EvalRow where
  users : List ℕ
  items : List ℕ
  mask : List Bool
deriving DecidableEq

/-- `_get_eval_batch(i)`, row-structured.  `evalUsersPerBatch` is `U`,
`numEvalNegatives` is `rconst.NUM_EVAL_NEGATIVES` (`N`), and `sampler`
stands for `self.lookup_negative_items`, called once on
`users[:, :-1].flatten()` (each user of the slice repeated `N` times) and
reshaped to rows of `N`.  The item row is built positive-first, the
duplicate mask is computed, then the first and last column of items and
mask are swapped, and missing rows are padded with zeros. -/
def getEvalBatchRows (evalPosUsers evalPosItems : List ℕ)
    (evalUsersPerBatch numEvalNegatives : ℕ) (sampler : List ℕ → List ℕ)
    (i : ℕ) : List EvalRow :=
  let lowIndex := i * evalUsersPerBatch
  let usersSlice := (evalPosUsers.drop lowIndex).take evalUsersPerBatch
  let itemsSlice := (evalPosItems.drop lowIndex).take evalUsersPerBatch
  let negativeUsers := usersSlice.flatMap (fun u => List.replicate numEvalNegatives u)
  let negs := sampler negativeUsers
  let rows := (List.range usersSlice.length).map (fun r =>
    let itemsRow := itemsSlice.getD r 0 :: (negs.drop (r * numEvalNegatives)).take numEvalNegatives
    let maskRow := maskDuplicates itemsRow
    { users := List.replicate (1 + numEvalNegatives) (usersSlice.getD r 0)
      items := swapFirstLast itemsRow
      mask := swapFirstLast maskRow : EvalRow })
  rows ++ List.replicate (evalUsersPerBatch - rows.length)
    { users := List.replicate (1 + numEvalNegatives) 0
      items := List.replicate (1 + numEvalNegatives) 0
      mask := List.replicate (1 + numEvalNegatives) false }

/-- The flattened `(users, items, duplicate_mask)` triple `_get_eval_batch`
returns. -/
def getEvalBatch (evalPosUsers evalPosItems : List ℕ)
    (evalUsersPerBatch numEvalNegatives : ℕ) (sampler : List ℕ → List ℕ)
    (i : ℕ) : List ℕ × List ℕ × List Bool :=
  let rows := getEvalBatchRows evalPosUsers evalPosItems evalUsersPerBatch
    numEvalNegatives sampler i
  (rows.flatMap EvalRow.users, rows.flatMap EvalRow.items, rows.flatMap EvalRow.mask)

/-! ### Materialized negative table
(`MaterializedDataConstructor.construct_lookup_variables` and
`lookup_negative_items`, lines 271-306) -/

/-- `np.iinfo(np.uint16).max`, the sentinel the table is pre-filled with. -/
def SENTINEL : ℕ := 65535

/-- `np.argwhere(users[1:] - users[:-1])[:, 0] + 1`: the positions in the
interaction arrays where the (sorted) user id changes. -/
def innerBounds (trainPosUsers : List ℕ) : List ℕ :=
  ((List.range (trainPosUsers.length - 1)).filter
    (fun j => decide (trainPosUsers.getD (j + 1) 0 ≠ trainPosUsers.getD j 0))).map
    (fun j => j + 1)

/-- `index_bounds = [0] + inner_bounds.tolist() + [self._num_users]`
(line 276).  Note the final entry is the USER count `num_users`, although
every other entry is a position in the interaction arrays; the embedding
reproduces the source as written. -/
def indexBounds (numUsers : ℕ) (trainPosUsers : List ℕ) : List ℕ :=
  0 :: (innerBounds trainPosUsers ++ [numUsers])

/-- `self._train_pos_items[index_bounds[i]:index_bounds[i+1]]` (line 295);
a Python slice with `hi ≤ lo` or bounds past the end is empty/clamped,
matching `take`/`drop` on `ℕ`. -/
def userPositivesSlice (bounds : List ℕ) (trainPosItems : List ℕ) (i : ℕ) : List ℕ :=
  let lo := bounds.getD i 0
  let hi := bounds.getD (i + 1) 0
  (trainPosItems.drop lo).take (hi - lo)

/-- One table row: `np.delete(np.arange(num_items), positives)` removes the
entries of `full_set` at the index list `positives`; since `full_set[x] = x`,
for in-range index lists this is the complement filter.  The row is then
left-packed and right-padded with the sentinel (the table was pre-filled
with it).  (`np.delete` raises for an out-of-range index and the row write
`table[i, :count] = negatives` raises on a length mismatch from duplicate
indices; no claim touches those inputs.) -/
def negRow (numItems : ℕ) (positives : List ℕ) : List ℕ :=
  let negatives := (List.range numItems).filter (fun x => decide (x ∉ positives))
  negatives ++ List.replicate (numItems - negatives.length) SENTINEL

/-- `self._per_user_neg_count[i] = num_items - positives.shape[0]` (line 297)
for every user row. -/
def constructPerUserNegCount (numUsers numItems : ℕ)
    (trainPosUsers trainPosItems : List ℕ) : List ℕ :=
  (List.range numUsers).map (fun i =>
    numItems -
      (userPositivesSlice (indexBounds numUsers trainPosUsers) trainPosItems i).length)

/-- The negative table built by `construct_lookup_variables`. -/
def constructNegativeTable (numUsers numItems : ℕ)
    (trainPosUsers trainPosItems : List ℕ) : List (List ℕ) :=
  (List.range numUsers).map (fun i =>
    negRow numItems
      (userPositivesSlice (indexBounds numUsers trainPosUsers) trainPosItems i))

/-- `MaterializedDataConstructor.lookup_negative_items`: gather the per-user
counts, draw one index per user via `stat_utils.slightly_biased_randint`
(external collaborator, modelled as the function `randChoice`; its contract
is to return, per count `c`, an index in `[0, c)`), and gather
`table[user, choice]` pairwise. -/
def lookupNegativeItems (table : List (List ℕ)) (counts : List ℕ)
    (randChoice : List ℕ → List ℕ) (negativeUsers : List ℕ) : List ℕ :=
  let userCounts := negativeUsers.map (fun u => counts.getD u 0)
  let choices := randChoice userCounts
  (negativeUsers.zip choices).map (fun p => (table.getD p.1 []).getD p.2 0)

/-- The positive items of user `u` as recorded in the raw interaction
arrays (ground truth against which the table is judged). -/
def truePositives (trainPosUsers trainPosItems : List ℕ) (u : ℕ) : List ℕ :=
  ((trainPosUsers.zip trainPosItems).filter (fun p => decide (p.1 = u))).map
    (fun p => p.2)

/-! ### Read-only interaction state (claim C9)

The arrays a constructed instance holds.  Batch construction is given as
state-passing functions `NCFStore → result × NCFStore`; every numpy gather
in the source (`arr[index_array]`, `table[users, choices]`) is advanced
indexing and returns a fresh copy, so the single in-place statement
`items[negative_indices] = negative_items` writes to a local copy and no
store field is ever assigned. -/

structure NCFStore where
  trainPosUsers : List ℕ
  trainPosItems : List ℕ
  evalPosUsers : List ℕ
  evalPosItems : List ℕ
  negativeTable : List (List ℕ)
  perUserNegCount : List ℕ
deriving DecidableEq

def lookupNegativeItemsS (randChoice : List ℕ → List ℕ) (negativeUsers : List ℕ)
    (st : NCFStore) : List ℕ × NCFStore :=
  (lookupNegativeItems st.negativeTable st.perUserNegCount randChoice negativeUsers,
   st)

def getTrainingBatchS (trainPosCount trainBatchSize : ℕ)
    (randChoice : List ℕ → List ℕ) (perms : ℕ → List ℕ) (s : OrderState)
    (st : NCFStore) : (TrainBatch × OrderState) × NCFStore :=
  (getTrainingBatch st.trainPosUsers st.trainPosItems trainPosCount trainBatchSize
      (fun us => (lookupNegativeItemsS randChoice us st).1) perms s,
   st)

def getEvalBatchS (evalUsersPerBatch numEvalNegatives : ℕ)
    (randChoice : List ℕ → List ℕ) (i : ℕ) (st : NCFStore) :
    (List ℕ × List ℕ × List Bool) × NCFStore :=
  (getEvalBatch st.evalPosUsers st.evalPosItems evalUsersPerBatch numEvalNegatives
      (fun us => (lookupNegativeItemsS randChoice us st).1) i,
   st)

/-! ### The epoch loop and the stop flag (`stop_loop`, lines 127-129, and
`run`, lines 156-162)

`run()` constructs one training epoch, the eval epoch, and then
`maximum_number_epochs - 1` further training epochs; nowhere does it read
`self._stop_loop`.  The loop is modelled as a fold over the epoch numbers,
with a cooperative stop event injected between epochs: before epoch
`stopAt` begins, `stop_loop()` runs (it sets the flag).  The instrumentation
field `startedAfterStop` counts the epoch constructions that began with the
flag already set. -/

structure RunState where
  stopFlag : Bool
  epochsStarted : ℕ
  startedAfterStop : ℕ
deriving DecidableEq

/-- Beginning the construction of one training epoch
(`self._construct_training_epoch()`); the loop body does not consult
`stopFlag`, exactly as in the source. -/
def constructTrainingEpoch (s : RunState) : RunState :=
  { stopFlag := s.stopFlag
    epochsStarted := s.epochsStarted + 1
    startedAfterStop := s.startedAfterStop + (if s.stopFlag then 1 else 0) }

/-- `stop_loop()`: sets `self._stop_loop = True` (the producer is also
signalled; that does not affect the epoch loop's control flow). -/
def stopLoop (s : RunState) : RunState :=
  { s with stopFlag := true }

/-- The training-epoch loop of `run()` (epoch 0 is the construction before
the eval epoch, epochs `1 .. maximumNumberEpochs - 1` the `for` loop), with
`stop_loop()` invoked between epochs, just before epoch `stopAt` starts. -/
def runWithStop (maximumNumberEpochs stopAt : ℕ) : RunState :=
  (List.range maximumNumberEpochs).foldl
    (fun s i => constructTrainingEpoch (if i = stopAt then stopLoop s else s))
    { stopFlag := false, epochsStarted := 0, startedAfterStop := 0 }

/-! ### Concrete inputs used by the corrected / code-bug claims -/

/-- Two users, three items; user 0 holds positives `{0, 1}`, user 1 holds
positive `{2}`.  Sorted by user, as the data-loading collaborator
guarantees. -/
def bugTrainPosUsers : List ℕ := [0, 0, 1]

def bugTrainPosItems : List ℕ := [0, 1, 2]

def bugNumUsers : ℕ := 2

def bugNumItems : ℕ := 3

def bugCounts : List ℕ :=
  constructPerUserNegCount bugNumUsers bugNumItems bugTrainPosUsers bugTrainPosItems

def bugTable : List (List ℕ) :=
  constructNegativeTable bugNumUsers bugNumItems bugTrainPosUsers bugTrainPosItems

/-- The biased index generator instantiated for the C2 failing input: on a
count `c` it returns `c - 1`, an index in `[0, c)` whenever `0 < c`, as the
collaborator contract allows. -/
def c2Rand : List ℕ → List ℕ := fun cs => cs.map (fun c => c - 1)

/-- Constructor arguments whose training arrays have unequal shapes while
the eval batch size (4) IS divisible by `1 + num_eval_negatives` (4). -/
def c6BadShapeArgs : InitArgs :=
  { maximumNumberEpochs := 1, numUsers := 1, numItems := 3,
    trainPosUsers := [0], trainPosItems := [], trainBatchSize := 2,
    batchesPerTrainStep := 1, numTrainNegatives := 1,
    evalPosUsers := [0], evalPosItems := [1], evalBatchSize := 4,
    batchesPerEvalStep := 1, numEvalNegatives := 3 }

/-- Well-shaped constructor arguments whose eval batch size (5) is NOT
divisible by `1 + num_eval_negatives` (4). -/
def c6IndivisibleArgs : InitArgs :=
  { maximumNumberEpochs := 1, numUsers := 1, numItems := 3,
    trainPosUsers := [0], trainPosItems := [2], trainBatchSize := 2,
    batchesPerTrainStep := 1, numTrainNegatives := 1,
    evalPosUsers := [0], evalPosItems := [1], evalBatchSize := 5,
    batchesPerEvalStep := 1, numEvalNegatives := 3 }

/-- Constructor arguments with training arrays of unequal shapes (two users
but one item). -/
def c10BadShapeArgs : InitArgs :=
  { maximumNumberEpochs := 1, numUsers := 2, numItems := 3,
    trainPosUsers := [0, 1], trainPosItems := [0], trainBatchSize := 2,
    batchesPerTrainStep := 1, numTrainNegatives := 1,
    evalPosUsers := [0, 1], evalPosItems := [1, 2], evalBatchSize := 4,
    batchesPerEvalStep := 1, numEvalNegatives := 3 }

/-- A producer for the C8 counterexample: epoch permutations of
`[0, 3)` (one positive row, two negatives per positive, so
`elements_in_epoch = 3`), with distinct first and second permutations. -/
def c8Perms : ℕ → List ℕ := fun i => if i = 0 then [2, 0, 1] else [1, 2, 0]

/-- The order state after the first chunk of size 2 has been consumed. -/
def c8SecondState : OrderState := (chunkRun c8Perms 2 1 startOrderState).2

/-- The second (the epoch's final, ragged) training batch for
`train_pos_users = [7]`, `train_pos_items = [5]`, batch size 2, with a
sampler that always returns item 9. -/
def c8SecondBatch : TrainBatch :=
  (getTrainingBatch [7] [5] 1 2 (fun us => us.map (fun _ => 9)) c8Perms
    c8SecondState).1

/-- A constant producer (every epoch the same permutation of `[0, 3)`),
used to instantiate the C3 theorem. -/
def c3WitnessPerms : ℕ → List ℕ := fun _ => [2, 0, 1]

/-! ## Theorems -/

/-! ### Helper lemmas about ceiling division -/

theorem natCeilDiv_eq_ceil (a b : ℕ) (hb : 0 < b) :
    a ⌈/⌉ b = ⌈(a : ℚ) / (b : ℚ)⌉₊ := by
  have hbq : (0 : ℚ) < (b : ℚ) := by exact_mod_cast hb
  apply le_antisymm
  · rw [ceilDiv_le_iff_le_smul hb, smul_eq_mul]
    have h := Nat.le_ceil ((a : ℚ) / (b : ℚ))
    rw [div_le_iff₀ hbq] at h
    exact_mod_cast h.trans_eq (mul_comm _ _)
  · rw [Nat.ceil_le, div_le_iff₀ hbq]
    have h := le_smul_ceilDiv (b := a) hb
    rw [smul_eq_mul] at h
    exact_mod_cast h.trans_eq (mul_comm _ _)

theorem countBatches_eq_ceilDiv (e b s : ℕ) :
    countBatches e b s = ((e ⌈/⌉ b) ⌈/⌉ s) * s := by
  simp only [countBatches, Nat.ceilDiv_eq_add_pred_div]

/-! ### Claim C5 -/

/-- C5: for positive `example_count`, `batch_size` and `batches_per_step`,
`_count_batches` computes
`ceil(ceil(example_count / batch_size) / batches_per_step) * batches_per_step`
(with the true rational ceiling), and the result is a multiple of
`batches_per_step`. -/
theorem c5_count_batches_ceil (e b s : ℕ) (_he : 0 < e) (hb : 0 < b) (hs : 0 < s) :
    countBatches e b s = ⌈((⌈(e : ℚ) / (b : ℚ)⌉₊ : ℕ) : ℚ) / (s : ℚ)⌉₊ * s ∧
    s ∣ countBatches e b s := by
  constructor
  · rw [countBatches_eq_ceilDiv, natCeilDiv_eq_ceil _ _ hb, natCeilDiv_eq_ceil _ _ hs]
  · rw [countBatches_eq_ceilDiv]
    exact dvd_mul_left s _

theorem c5_count_batches_ceil_witness :
    0 < 10 ∧ 0 < 3 ∧ 0 < 4 ∧
      (countBatches 10 3 4 = ⌈((⌈(10 : ℚ) / (3 : ℚ)⌉₊ : ℕ) : ℚ) / (4 : ℚ)⌉₊ * 4 ∧
        4 ∣ countBatches 10 3 4) :=
  ⟨by decide, by decide, by decide,
    c5_count_batches_ceil 10 3 4 (by decide) (by decide) (by decide)⟩

/-! ### Claim C6 -/

/-- C6 counterexample: construction also raises when the training arrays
have unequal shapes (the `assert` on line 76), even though the eval batch
size is perfectly divisible by `1 + num_eval_negatives`; so "raises an error
if and only if eval_batch_size is not evenly divisible" is false as an
equivalence. -/
theorem c6_counterexample :
    initConstructor c6BadShapeArgs = .error .assertionError ∧
    c6BadShapeArgs.evalBatchSize % (1 + c6BadShapeArgs.numEvalNegatives) = 0 := by
  constructor <;> rfl

/-- C6 (amended): given training arrays of equal shape and nonzero
`train_batch_size`, `batches_per_train_step`, `eval_batch_size` and
`batches_per_eval_step` (zero values raise `ZeroDivisionError` inside
`_count_batches` instead), construction raises if and only if
`eval_batch_size` is not divisible by `1 + num_eval_negatives`; the check is
part of `__init__` itself, which returns before any thread can start. -/
theorem c6_init_error_iff (a : InitArgs)
    (hshape : a.trainPosUsers.length = a.trainPosItems.length)
    (htb : a.trainBatchSize ≠ 0) (hts : a.batchesPerTrainStep ≠ 0)
    (heb : a.evalBatchSize ≠ 0) (hes : a.batchesPerEvalStep ≠ 0) :
    (∃ err, initConstructor a = .error err) ↔
      a.evalBatchSize % (1 + a.numEvalNegatives) ≠ 0 := by
  rw [initConstructor]
  rw [if_neg (not_ne_iff.mpr hshape), if_neg htb, if_neg hts]
  by_cases hdiv : a.evalBatchSize % (1 + a.numEvalNegatives) ≠ 0
  · rw [if_pos hdiv]
    simp [hdiv]
  · rw [if_neg hdiv, if_neg heb, if_neg hes]
    simp [hdiv]

theorem c6_init_error_iff_witness :
    c6IndivisibleArgs.trainPosUsers.length = c6IndivisibleArgs.trainPosItems.length ∧
    (∃ err, initConstructor c6IndivisibleArgs = .error err) :=
  ⟨by decide,
    (c6_init_error_iff c6IndivisibleArgs (by decide) (by decide) (by decide)
        (by decide) (by decide)).mpr (by decide)⟩

/-! ### Claim C10 -/

/-- C10: constructing with training arrays of unequal shapes fails
immediately with the assertion error (line 76), and every successfully
constructed instance holds training arrays of equal length. -/
theorem c10_shape_assert (a : InitArgs) :
    (a.trainPosUsers.length ≠ a.trainPosItems.length →
        initConstructor a = .error .assertionError) ∧
    ∀ c : Config, initConstructor a = .ok c →
        c.trainPosUsers.length = c.trainPosItems.length := by
  constructor
  · intro h
    rw [initConstructor, if_pos h]
  · intro c hc
    rw [initConstructor] at hc
    split_ifs at hc with h1 h2 h3 h4 h5 h6
    injection hc with h'
    subst h'
    exact not_ne_iff.mp h1

theorem c10_shape_assert_witness :
    c10BadShapeArgs.trainPosUsers.length ≠ c10BadShapeArgs.trainPosItems.length ∧
    initConstructor c10BadShapeArgs = .error .assertionError :=
  ⟨by decide, (c10_shape_assert c10BadShapeArgs).1 (by decide)⟩

/-! ### Claim C7 -/

/-- C7 (code bug): `run()` never reads `self._stop_loop`.  With
`maximum_number_epochs = 3` and `stop_loop()` invoked between the first and
the second epoch, the flag is set from then on, yet two further
training-epoch constructions begin (the claim requires zero). -/
theorem c7_run_ignores_stop_flag :
    (runWithStop 3 1).stopFlag = true ∧
    (runWithStop 3 1).epochsStarted = 3 ∧
    (runWithStop 3 1).startedAfterStop = 2 := by
  constructor
  · rfl
  · constructor <;> rfl

/-! ### Claim C1 -/

/-- C1 (code bug): after `construct_lookup_variables` on
`num_users = 2, num_items = 3, train_pos_users = [0,0,1],
train_pos_items = [0,1,2]`, the last user's positives slice is
`train_pos_items[2:2] = []` because `index_bounds` ends with `num_users = 2`
instead of the interaction count 3.  Hence
`per_user_neg_count[1] + |positives[1]| = 3 + 1 ≠ num_items = 3`, and the
left-packed valid region of table row 1 contains item 2, user 1's own
positive, instead of the complement `[0, 1]`. -/
theorem c1_lookup_table_bug :
    bugCounts = [1, 3] ∧
    bugTable = [[2, SENTINEL, SENTINEL], [0, 1, 2]] ∧
    truePositives bugTrainPosUsers bugTrainPosItems 1 = [2] ∧
    bugCounts.getD 1 0 +
        (truePositives bugTrainPosUsers bugTrainPosItems 1).length = 4 ∧
    bugNumItems = 3 ∧
    2 ∈ (bugTable.getD 1 []).take (bugCounts.getD 1 0) := by
  refine ⟨by decide, by decide, by decide, by decide, by decide, by decide⟩

/-! ### Claim C2 -/

/-- C2 (code bug): on the same input as C1, querying
`lookup_negative_items` for user 1 with a biased generator that returns the
in-range index `count - 1 = 2` yields item 2 — which IS a member of user 1's
known positive set, because the table row was built from an empty positives
slice.  (The per-user count of the queried user is positive, and the drawn
index is within `[0, count)`, as the claim assumes.) -/
theorem c2_lookup_returns_positive :
    0 < bugCounts.getD 1 0 ∧
    c2Rand [bugCounts.getD 1 0] = [2] ∧
    2 < bugCounts.getD 1 0 ∧
    lookupNegativeItems bugTable bugCounts c2Rand [1] = [2] ∧
    2 ∈ truePositives bugTrainPosUsers bugTrainPosItems 1 := by
  refine ⟨by decide, by decide, by decide, by decide, by decide⟩

/-! ### Lemmas about the order-chunk machinery (claims C3 and C8) -/

theorem permsFlat_succ (perms : ℕ → List ℕ) (start k : ℕ) :
    permsFlat perms start (k + 1) = perms start ++ permsFlat perms (start + 1) k := rfl

/-- When the held list still has at least a full batch, the chunk is its
`B`-prefix; the refill fires only when the remainder came out empty. -/
theorem orderChunkCore_of_le (perms : ℕ → List ℕ) (B : ℕ) (cur : List ℕ) (fc : ℕ)
    (h : B ≤ cur.length) :
    orderChunkCore perms B cur fc =
      (cur.take B,
        if (cur.drop B).isEmpty then
          ({ order := some (perms fc), next := fc + 1 } : OrderState)
        else { order := some (cur.drop B), next := fc }) := by
  have h0 : B - (cur.take B).length = 0 := by
    rw [List.length_take]
    omega
  unfold orderChunkCore
  dsimp only
  by_cases hrem : (cur.drop B).isEmpty
  · simp only [if_pos hrem, if_pos h0]
  · simp only [if_neg hrem, if_pos h0]

/-- When the held list is shorter than a batch, the chunk is the whole held
list spliced with a prefix of the freshly fetched permutation. -/
theorem orderChunkCore_of_lt (perms : ℕ → List ℕ) (B : ℕ) (cur : List ℕ) (fc : ℕ)
    (h : cur.length < B) :
    orderChunkCore perms B cur fc =
      (cur ++ (perms fc).take (B - cur.length),
        { order := some ((perms fc).drop (B - cur.length)), next := fc + 1 }) := by
  have htake : cur.take B = cur := List.take_of_length_le (le_of_lt h)
  have hrem : (cur.drop B).isEmpty = true := by
    rw [List.isEmpty_iff, List.drop_eq_nil_iff]
    omega
  have h0 : ¬ B - (cur.take B).length = 0 := by
    rw [htake]
    omega
  unfold orderChunkCore
  dsimp only
  simp only [if_pos hrem, if_neg h0]
  rw [htake]

theorem orderChunkCore_length (perms : ℕ → List ℕ) (B E : ℕ) (hBE : B ≤ E)
    (hlen : ∀ i, (perms i).length = E) (cur : List ℕ) (fc : ℕ) :
    ((orderChunkCore perms B cur fc).1).length = B := by
  rcases le_or_lt B cur.length with hle | hlt
  · rw [orderChunkCore_of_le perms B cur fc hle]
    dsimp only
    rw [List.length_take]
    omega
  · rw [orderChunkCore_of_lt perms B cur fc hlt]
    dsimp only
    rw [List.length_append, List.length_take, hlen fc]
    omega

theorem orderChunkCore_next (perms : ℕ → List ℕ) (B : ℕ) (cur : List ℕ) (fc : ℕ) :
    (orderChunkCore perms B cur fc).2.next ≤ fc + 1 := by
  rcases le_or_lt B cur.length with hle | hlt
  · rw [orderChunkCore_of_le perms B cur fc hle]
    by_cases hrem : (cur.drop B).isEmpty
    · rw [if_pos hrem]
    · rw [if_neg hrem]
      dsimp only
      omega
  · rw [orderChunkCore_of_lt perms B cur fc hlt]

theorem orderChunkCore_pending (perms : ℕ → List ℕ) (B K : ℕ) (cur : List ℕ)
    (fc : ℕ) (hK : fc < K) :
    (orderChunkCore perms B cur fc).1 ++
        pending perms K (orderChunkCore perms B cur fc).2
      = cur ++ permsFlat perms fc (K - fc) := by
  have hsplit : permsFlat perms fc (K - fc)
      = perms fc ++ permsFlat perms (fc + 1) (K - (fc + 1)) := by
    have h : K - fc = (K - (fc + 1)) + 1 := by omega
    rw [h, permsFlat_succ]
  rcases le_or_lt B cur.length with hle | hlt
  · rw [orderChunkCore_of_le perms B cur fc hle]
    by_cases hrem : (cur.drop B).isEmpty
    · rw [if_pos hrem]
      have hcur : cur.take B = cur := by
        rw [List.isEmpty_iff, List.drop_eq_nil_iff] at hrem
        exact List.take_of_length_le hrem
      simp only [pending, Option.getD_some]
      rw [hcur, hsplit]
    · rw [if_neg hrem]
      simp only [pending, Option.getD_some]
      rw [← List.append_assoc, List.take_append_drop]
  · rw [orderChunkCore_of_lt perms B cur fc hlt]
    simp only [pending, Option.getD_some]
    rw [hsplit, List.append_assoc, ← List.append_assoc ((perms fc).take _),
      List.take_append_drop]

theorem getOrderChunk_length (perms : ℕ → List ℕ) (B E : ℕ) (hBE : B ≤ E)
    (hlen : ∀ i, (perms i).length = E) (s : OrderState) :
    ((getOrderChunk perms B s).1).length = B := by
  rcases s with ⟨o, nx⟩
  cases o with
  | none => exact orderChunkCore_length perms B E hBE hlen _ _
  | some o => exact orderChunkCore_length perms B E hBE hlen _ _

theorem getOrderChunk_pending (perms : ℕ → List ℕ) (B K : ℕ) (s : OrderState)
    (hK : s.next + 2 ≤ K) :
    (getOrderChunk perms B s).1 ++ pending perms K (getOrderChunk perms B s).2
        = pending perms K s ∧
    (getOrderChunk perms B s).2.next ≤ s.next + 2 := by
  rcases s with ⟨o, nx⟩
  cases o with
  | none =>
      have h := orderChunkCore_pending perms B K (perms nx) (nx + 1) (by simp at hK; omega)
      have hnext := orderChunkCore_next perms B (perms nx) (nx + 1)
      constructor
      · have hpend : pending perms K ⟨none, nx⟩
            = perms nx ++ permsFlat perms (nx + 1) (K - (nx + 1)) := by
          have h' : K - nx = (K - (nx + 1)) + 1 := by simp at hK; omega
          simp only [pending, Option.getD_none, List.nil_append, h', permsFlat_succ]
        rw [hpend]
        exact h
      · exact hnext
  | some o =>
      have h := orderChunkCore_pending perms B K o nx (by simp at hK; omega)
      have hnext := orderChunkCore_next perms B o nx
      refine ⟨h, ?_⟩
      show (orderChunkCore perms B o nx).2.next ≤ nx + 2
      omega

theorem chunkRun_succ (perms : ℕ → List ℕ) (B n : ℕ) (s : OrderState) :
    chunkRun perms B (n + 1) s =
      ((getOrderChunk perms B s).1 ::
          (chunkRun perms B n (getOrderChunk perms B s).2).1,
        (chunkRun perms B n (getOrderChunk perms B s).2).2) := rfl

theorem chunkRun_spec (perms : ℕ → List ℕ) (B E : ℕ) (hBE : B ≤ E)
    (hlen : ∀ i, (perms i).length = E) :
    ∀ (n : ℕ) (s : OrderState) (K : ℕ), s.next + 2 * n ≤ K →
      ((chunkRun perms B n s).1.flatten ++ pending perms K (chunkRun perms B n s).2
          = pending perms K s) ∧
      (∀ out ∈ (chunkRun perms B n s).1, out.length = B) ∧
      (chunkRun perms B n s).1.length = n ∧
      (chunkRun perms B n s).2.next ≤ s.next + 2 * n := by
  intro n
  induction n with
  | zero =>
      intro s K hK
      refine ⟨by simp [chunkRun], by simp [chunkRun], rfl, by simp [chunkRun]⟩
  | succ n ih =>
      intro s K hK
      have hstep := getOrderChunk_pending perms B K s (by omega)
      have hlen1 := getOrderChunk_length perms B E hBE hlen s
      have hnext := hstep.2
      have hrest := ih (getOrderChunk perms B s).2 K (by omega)
      rw [chunkRun_succ]
      refine ⟨?_, ?_, ?_, ?_⟩
      · simp only [List.flatten_cons, List.append_assoc]
        rw [hrest.1]
        exact hstep.1
      · intro out hout
        rcases List.mem_cons.mp hout with h | h
        · rw [h]
          exact hlen1
        · exact hrest.2.1 out h
      · simp [hrest.2.2.1]
      · dsimp only
        have := hrest.2.2.2
        omega

theorem pending_start (perms : ℕ → List ℕ) (K : ℕ) :
    pending perms K startOrderState = permsFlat perms 0 K := by
  simp [pending, startOrderState]

theorem chunkRun_flatten_take (perms : ℕ → List ℕ) (B E n : ℕ) (hBE : B ≤ E)
    (hlen : ∀ i, (perms i).length = E) :
    (chunkRun perms B n startOrderState).1.flatten =
      (permsFlat perms 0 (2 * n)).take (n * B) := by
  have h := chunkRun_spec perms B E hBE hlen n startOrderState (2 * n)
    (by simp [startOrderState])
  have hmap : (chunkRun perms B n startOrderState).1.map List.length
      = List.replicate n B := by
    rw [List.eq_replicate_iff]
    constructor
    · simp [h.2.2.1]
    · intro b hb
      rcases List.mem_map.mp hb with ⟨out, hout, rfl⟩
      exact h.2.1 out hout
  have hflatlen : (chunkRun perms B n startOrderState).1.flatten.length = n * B := by
    rw [List.length_flatten, hmap, List.sum_replicate, smul_eq_mul]
  rw [← pending_start perms (2 * n), ← h.1, List.take_left' hflatlen]

theorem permsFlat_window (perms : ℕ → List ℕ) (E : ℕ)
    (hlen : ∀ i, (perms i).length = E) :
    ∀ (j a k : ℕ), j < k →
      ((permsFlat perms a k).drop (j * E)).take E = perms (a + j) := by
  intro j
  induction j with
  | zero =>
      intro a k hk
      cases k with
      | zero => omega
      | succ k' =>
          rw [permsFlat_succ]
          simp only [Nat.zero_mul, List.drop_zero, Nat.add_zero]
          exact List.take_left' (hlen a)
  | succ j ih =>
      intro a k hk
      cases k with
      | zero => omega
      | succ k' =>
          rw [permsFlat_succ, Nat.succ_mul, Nat.add_comm (j * E) E, ← List.drop_drop,
            List.drop_left' (hlen a)]
          have h' : a + (j + 1) = (a + 1) + j := by omega
          rw [h']
          exact ih (a + 1) k' (by omega)

/-! ### Claim C3 -/

/-- C3: every `_get_order_chunk` call returns exactly `train_batch_size`
indices, and the indices delivered for the `j`-th epoch window (positions
`[j*E, (j+1)*E)` of the concatenated chunk stream, where
`E = (1 + num_train_negatives) * train_pos_count`) form a permutation of
`[0, E)` — no repeats, no omissions — regardless of how chunk boundaries
fall relative to epoch boundaries.  Hypotheses: the batch size is positive
and at most the epoch size, the producer delivers permutations of `[0, E)`,
and enough calls are made to cover the window. -/
theorem c3_order_chunk_epoch_tiling (perms : ℕ → List ℕ)
    (numTrainNegatives trainPosCount B n j : ℕ) (hB : 0 < B)
    (hBE : B ≤ elementsInEpoch numTrainNegatives trainPosCount)
    (hperm : ∀ i, (perms i).Perm
        (List.range (elementsInEpoch numTrainNegatives trainPosCount)))
    (hcover : (j + 1) * elementsInEpoch numTrainNegatives trainPosCount ≤ n * B) :
    (∀ out ∈ (chunkRun perms B n startOrderState).1, out.length = B) ∧
    (((chunkRun perms B n startOrderState).1.flatten.drop
          (j * elementsInEpoch numTrainNegatives trainPosCount)).take
        (elementsInEpoch numTrainNegatives trainPosCount)).Perm
      (List.range (elementsInEpoch numTrainNegatives trainPosCount)) := by
  set E := elementsInEpoch numTrainNegatives trainPosCount with hE
  have hlen : ∀ i, (perms i).length = E := by
    intro i
    have := (hperm i).length_eq
    simpa using this
  have hspec := chunkRun_spec perms B E hBE hlen n startOrderState (2 * n)
    (by simp [startOrderState])
  refine ⟨hspec.2.1, ?_⟩
  rw [chunkRun_flatten_take perms B E n hBE hlen]
  have hEpos : 0 < E := lt_of_lt_of_le hB hBE
  have hjn : j < n := by
    have h1 : n * B ≤ n * E := Nat.mul_le_mul_left n hBE
    have h2 : (j + 1) * E ≤ n * E := le_trans hcover h1
    have h3 : j + 1 ≤ n := Nat.le_of_mul_le_mul_right h2 hEpos
    omega
  have hc' : j * E + E ≤ n * B := by
    rw [Nat.succ_mul] at hcover
    exact hcover
  rw [List.drop_take, List.take_take, min_eq_left (Nat.le_sub_of_add_le
    (by omega : E + j * E ≤ n * B))]
  have hwin := permsFlat_window perms E hlen j 0 (2 * n) (by omega)
  simp only [Nat.zero_add] at hwin
  rw [hwin]
  exact hperm j

theorem c3_order_chunk_epoch_tiling_witness :
    0 < 2 ∧ 2 ≤ elementsInEpoch 2 1 ∧
    ((∀ out ∈ (chunkRun c3WitnessPerms 2 3 startOrderState).1, out.length = 2) ∧
      (((chunkRun c3WitnessPerms 2 3 startOrderState).1.flatten.drop
            (1 * elementsInEpoch 2 1)).take (elementsInEpoch 2 1)).Perm
        (List.range (elementsInEpoch 2 1))) :=
  ⟨by decide, by decide,
    c3_order_chunk_epoch_tiling c3WitnessPerms 2 1 2 3 1 (by decide) (by decide)
      (fun _ => (by decide : ([2, 0, 1] : List ℕ).Perm
        (List.range (elementsInEpoch 2 1)))) (by decide)⟩

/-! ### Claim C9 -/

/-- C9: none of the batch-construction operations writes to the interaction
arrays, the negative table or the per-user counts: each state-passing
operation returns the store unchanged.  (In the source the only in-place
write, `items[negative_indices] = negative_items`, lands on the fresh copy
produced by the advanced-indexing gather `self._train_pos_items[batch_ind_mod]`,
never on the stored array.) -/
theorem c9_construction_reads_only (st : NCFStore)
    (randChoice : List ℕ → List ℕ) (perms : ℕ → List ℕ) (s : OrderState)
    (trainPosCount trainBatchSize evalUsersPerBatch numEvalNegatives i : ℕ)
    (negativeUsers : List ℕ) :
    (lookupNegativeItemsS randChoice negativeUsers st).2 = st ∧
    (getTrainingBatchS trainPosCount trainBatchSize randChoice perms s st).2 = st ∧
    (getEvalBatchS evalUsersPerBatch numEvalNegatives randChoice i st).2 = st :=
  ⟨rfl, rfl, rfl⟩

/-! ### Claim C8 -/

theorem applyNegatives_length :
    ∀ (items : List ℕ) (flags : List Bool) (negs : List ℕ),
      (applyNegatives items flags negs).length = items.length := by
  intro items
  induction items with
  | nil =>
      intro flags negs
      cases flags with
      | nil => rfl
      | cons f fs => rfl
  | cons it its ih =>
      intro flags negs
      cases flags with
      | nil => rfl
      | cons f fs =>
          cases f
          · simp only [applyNegatives, List.length_cons, ih]
          · simp only [applyNegatives, List.length_cons, ih]

/-- C8 counterexample: with one positive row (`train_pos_users = [7]`,
`train_pos_items = [5]`), two negatives per positive (epoch index space
`[0, 3)`) and batch size 2, the epoch needs `ceil(3/2) = 2` batches.  The
second, ragged batch is NOT zero-padded: its second slot is spliced from
the head of the NEXT epoch's permutation, so its users row is `[7, 7]`
(a real example in the pad position), not `[7, 0]`. -/
theorem c8_counterexample :
    countBatches (elementsInEpoch 2 1) 2 1 = 2 ∧
    (chunkRun c8Perms 2 2 startOrderState).1 = [[2, 0], [1, 1]] ∧
    c8SecondBatch.users = [7, 7] ∧
    c8SecondBatch.users.getD 1 0 ≠ 0 :=
  ⟨by decide, by decide, by decide, by decide⟩

/-- C8 (amended): every training batch consists of three parallel sequences
(users, items, labels) of length exactly `train_batch_size`; when the epoch
index space does not divide evenly, the final chunk is completed by
splicing the leading indices of the next epoch's fresh permutation (the
chunk always equals the `train_batch_size`-prefix of the pending index
stream), not by zero padding. -/
theorem c8_training_batch_fixed_size (trainPosUsers trainPosItems : List ℕ)
    (numTrainNegatives trainPosCount B K : ℕ) (sampler : List ℕ → List ℕ)
    (perms : ℕ → List ℕ) (s : OrderState)
    (hBE : B ≤ elementsInEpoch numTrainNegatives trainPosCount)
    (hlen : ∀ i, (perms i).length = elementsInEpoch numTrainNegatives trainPosCount)
    (hK : s.next + 2 ≤ K) :
    (getTrainingBatch trainPosUsers trainPosItems trainPosCount B sampler
        perms s).1.users.length = B ∧
    (getTrainingBatch trainPosUsers trainPosItems trainPosCount B sampler
        perms s).1.items.length = B ∧
    (getTrainingBatch trainPosUsers trainPosItems trainPosCount B sampler
        perms s).1.labels.length = B ∧
    (getOrderChunk perms B s).1 = (pending perms K s).take B := by
  have hlen1 := getOrderChunk_length perms B _ hBE hlen s
  have hstep := getOrderChunk_pending perms B K s hK
  have hchunk : (getOrderChunk perms B s).1 = (pending perms K s).take B := by
    rw [← hstep.1, List.take_left' hlen1]
  refine ⟨?_, ?_, ?_, hchunk⟩ <;>
    simp [getTrainingBatch, buildTrainingBatch, applyNegatives_length, hlen1]

theorem c8_training_batch_fixed_size_witness :
    2 ≤ elementsInEpoch 1 1 ∧
    ((getTrainingBatch [7] [5] 1 2 (fun us => us.map (fun _ => 9))
        (fun _ => [1, 0]) startOrderState).1.users.length = 2 ∧
      (getTrainingBatch [7] [5] 1 2 (fun us => us.map (fun _ => 9))
        (fun _ => [1, 0]) startOrderState).1.items.length = 2 ∧
      (getTrainingBatch [7] [5] 1 2 (fun us => us.map (fun _ => 9))
        (fun _ => [1, 0]) startOrderState).1.labels.length = 2 ∧
      (getOrderChunk (fun _ => [1, 0]) 2 startOrderState).1 =
        (pending (fun _ => [1, 0]) 2 startOrderState).take 2) :=
  ⟨by decide,
    c8_training_batch_fixed_size [7] [5] 1 1 2 2 (fun us => us.map (fun _ => 9))
      (fun _ => [1, 0]) startOrderState (by decide)
      (fun _ => (rfl : ([1, 0] : List ℕ).length = elementsInEpoch 1 1)) (by decide)⟩

/-! ### Claim C4 -/

theorem swapFirstLast_cons_of_ne {α : Type} (x : α) (xs : List α) (h : xs ≠ []) :
    swapFirstLast (x :: xs) = xs.getLastD x :: (xs.dropLast ++ [x]) := by
  cases xs with
  | nil => exact absurd rfl h
  | cons y ys => rfl

theorem swapFirstLast_getLastD {α : Type} (x y : α) (xs : List α) :
    (swapFirstLast (x :: xs)).getLastD y = x := by
  cases xs with
  | nil => rfl
  | cons z zs =>
      rw [swapFirstLast_cons_of_ne x (z :: zs) (by simp), List.getLastD_cons,
        List.getLastD_concat]

theorem swapFirstLast_perm {α : Type} (l : List α) : (swapFirstLast l).Perm l := by
  cases l with
  | nil => exact List.Perm.refl _
  | cons x xs =>
      rcases List.eq_nil_or_concat xs with rfl | ⟨L, b, rfl⟩
      · exact List.Perm.refl _
      · rw [List.concat_eq_append]
        rw [swapFirstLast_cons_of_ne x (L ++ [b]) (by simp),
          List.getLastD_concat, List.dropLast_concat]
        refine ((List.perm_append_singleton x L).cons b).trans ?_
        refine (List.Perm.swap x b L).trans ?_
        exact (List.perm_append_singleton b L).symm.cons x

theorem maskDuplicates_cons (p : ℕ) (negs : List ℕ) :
    maskDuplicates (p :: negs) = false :: maskDupGo [p] negs := rfl

/-- The `r`-th row of an eval batch, for `r` within the actual (non-padding)
user slice. -/
theorem getEvalBatchRows_getD (evalPosUsers evalPosItems : List ℕ)
    (U N i r : ℕ) (sampler : List ℕ → List ℕ) (d : EvalRow)
    (hr : r < ((evalPosUsers.drop (i * U)).take U).length) :
    (getEvalBatchRows evalPosUsers evalPosItems U N sampler i).getD r d =
      { users := List.replicate (1 + N)
          (((evalPosUsers.drop (i * U)).take U).getD r 0)
        items := swapFirstLast
          (((evalPosItems.drop (i * U)).take U).getD r 0 ::
            ((sampler (((evalPosUsers.drop (i * U)).take U).flatMap
                (fun u => List.replicate N u))).drop (r * N)).take N)
        mask := swapFirstLast (maskDuplicates
          (((evalPosItems.drop (i * U)).take U).getD r 0 ::
            ((sampler (((evalPosUsers.drop (i * U)).take U).flatMap
                (fun u => List.replicate N u))).drop (r * N)).take N)) } := by
  unfold getEvalBatchRows
  dsimp only
  rw [List.getD_eq_getElem?_getD, List.getElem?_append_left (by simpa using hr),
    List.getElem?_map, List.getElem?_range hr]
  rfl

/-- C4 counterexample: one eval user (id 5) whose held-out positive is item
1; the sampler returns negatives `[1, 2]` — legitimate, since the held-out
positive is absent from the training positives and hence present in the
negative table.  The post-swap items row is `[2, 1, 1]`: TWO columns equal
the true positive, refuting "exactly one column of that row equals the true
positive".  (The duplicate mask `[false, true, false]` does flag the
colliding negative and leaves the positive, now in the last column,
unmasked.) -/
theorem c4_counterexample :
    (getEvalBatchRows [5] [1] 1 2 (fun _ => [1, 2]) 0) =
      [{ users := [5, 5, 5], items := [2, 1, 1], mask := [false, true, false] }] ∧
    [2, 1, 1].count 1 = 2 :=
  ⟨by decide, by decide⟩

/-- C4 (amended): in every eval batch, for each non-padding user row the
true held-out positive occupies the last column after the swap step, the
duplicate mask is computed before the swap so the positive's own mask entry
(last after the swap) is never set — a colliding sampled negative cannot
mask the positive out — and, provided no sampled negative of that row
equals the positive, exactly one column equals the true positive. -/
theorem c4_eval_positive_last_unmasked (evalPosUsers evalPosItems : List ℕ)
    (U N i r : ℕ) (sampler : List ℕ → List ℕ) (d : EvalRow)
    (hr : r < ((evalPosUsers.drop (i * U)).take U).length) :
    ((getEvalBatchRows evalPosUsers evalPosItems U N sampler i).getD r d).items.getLastD 0
        = ((evalPosItems.drop (i * U)).take U).getD r 0 ∧
    ((getEvalBatchRows evalPosUsers evalPosItems U N sampler i).getD r d).mask.getLastD true
        = false ∧
    ((∀ x ∈ ((sampler (((evalPosUsers.drop (i * U)).take U).flatMap
          (fun u => List.replicate N u))).drop (r * N)).take N,
        x ≠ ((evalPosItems.drop (i * U)).take U).getD r 0) →
      ((getEvalBatchRows evalPosUsers evalPosItems U N sampler i).getD r d).items.count
          (((evalPosItems.drop (i * U)).take U).getD r 0) = 1) := by
  rw [getEvalBatchRows_getD evalPosUsers evalPosItems U N i r sampler d hr]
  refine ⟨?_, ?_, ?_⟩
  · exact swapFirstLast_getLastD _ 0 _
  · rw [maskDuplicates_cons]
    exact swapFirstLast_getLastD false true _
  · intro hno
    rw [(swapFirstLast_perm _).count_eq, List.count_cons_self,
      List.count_eq_zero.mpr (fun hmem => hno _ hmem rfl)]

theorem c4_eval_positive_last_unmasked_witness :
    0 < ((([5] : List ℕ).drop (0 * 1)).take 1).length ∧
    ((getEvalBatchRows [5] [1] 1 2 (fun _ => [0, 2]) 0).getD 0
          ⟨[], [], []⟩).items.getLastD 0
        = ((([1] : List ℕ).drop (0 * 1)).take 1).getD 0 0 ∧
    ((getEvalBatchRows [5] [1] 1 2 (fun _ => [0, 2]) 0).getD 0
          ⟨[], [], []⟩).mask.getLastD true = false ∧
    ((getEvalBatchRows [5] [1] 1 2 (fun _ => [0, 2]) 0).getD 0
          ⟨[], [], []⟩).items.count
        (((([1] : List ℕ).drop (0 * 1)).take 1).getD 0 0) = 1 := by
  have h := c4_eval_positive_last_unmasked [5] [1] 1 2 0 0 (fun _ => [0, 2])
    ⟨[], [], []⟩ (by decide)
  exact ⟨by decide, h.1, h.2.1, h.2.2 (by decide)⟩

end DataPipeline
